import Mathlib

/-!
Verification of the graph-building pipeline in `src/data/hhh_graph.py`.

The pipeline turns per-event columnar jet data into graph records:
  * `filterJets`    — line 120–127: mask `pt > MIN_JET_PT` applied to the
    seven jet-level columns;
  * `filterEvents`  — line 130–137: mask `num(pt) >= MIN_JETS` applied to the
    seven jet-level columns (the parent `higgs_*` columns are NOT touched);
  * `remapUnmatched`— line 140: `higgs_idx = where(higgs_idx > -1, higgs_idx, 0)`;
  * `requireBJet`   — line 142: `higgs_idx = where(hadron_flavor == 5, higgs_idx, 0)`;
  * `buildRecords`  — line 144–169: per event, node features, edge index
    (`get_edge_index`), edge features and edge labels
    (`compute_edge_features`), packaged into one `GraphRecord`.

Numeric modelling: the Python floats are modelled by `ℚ` (exact field
arithmetic; every comparison and rewrite the claims concern is order/equality
based).  The five edge features that are irrational functions of the jet pair
(`log_delta_r`, `log_mass2`, `log_pt_jj`, `eta_jj`, `phi_jj`) cannot be values
of `ℚ`; an `EdgeFeat` row therefore records the jet pair `(j0, j1)` the row is
computed from together with the exact rational quantities the claims are
about: `min_pt` (the argument of the logarithm occurring in `log_kt`),
`sum_pt`, and `log_z_arg = min_pt / sum_pt` (the argument of `log_z`).  The
node feature `ln(pt)` is likewise represented by its argument `log_pt_arg`.

Equality of jets: in the source the self-loop mask of
`compute_edge_features` is `~(jet_pairs.j0 == jet_pairs.j1)` where `==` is
the `vector` library's `Momentum4D` equality, i.e. exact equality of the four
stored coordinates (pt, eta, phi, mass); the extra `higgs_idx` field is not a
coordinate.  This is `momentumEq` below.  Note that this is NOT the
positional mask used by `get_edge_index` (`one_index != two_index`).
-/

/-- `MIN_JET_PT = 20` (line 17), compared against the rational jet pt. -/
def MIN_JET_PT : ℚ := 20

/-- `MIN_JETS = 6` (line 18). -/
def MIN_JETS : ℕ := 6

/-- `N_JETS = 10` (line 16): padded jet slots per event. -/
def N_JETS : ℕ := 10

/-- `N_HIGGS = 3` (line 19): number of parent (Higgs) particles. -/
def N_HIGGS : ℕ := 3

/-- Awkward-style boolean masking `xs[mask]`: keep `xs[i]` iff `mask[i]`. -/
def maskFilter : List Bool → List α → List α
  | true :: bs, x :: xs => x :: maskFilter bs xs
  | false :: bs, _ :: xs => maskFilter bs xs
  | _, _ => []

/-- The columnar state of `HHHGraph.process` after loading (lines 107–117):
outer list = events, inner list = values for the objects of one event. -/
structure Columns where
  higgs_pt : List (List ℚ)
  higgs_eta : List (List ℚ)
  higgs_phi : List (List ℚ)
  pt : List (List ℚ)
  eta : List (List ℚ)
  phi : List (List ℚ)
  btag : List (List ℚ)
  jet_id : List (List ℤ)
  higgs_idx : List (List ℤ)
  hadron_flavor : List (List ℤ)

/-- Per-event jet mask `pt > MIN_JET_PT` (line 120). -/
def ptMask (l : List ℚ) : List Bool := l.map fun x => decide (MIN_JET_PT < x)

/-- Lines 120–127: `mask = pt > MIN_JET_PT` applied to the seven jet columns. -/
def filterJets (c : Columns) : Columns :=
  let masks := c.pt.map ptMask
  { c with
    pt := List.zipWith maskFilter masks c.pt
    eta := List.zipWith maskFilter masks c.eta
    phi := List.zipWith maskFilter masks c.phi
    btag := List.zipWith maskFilter masks c.btag
    jet_id := List.zipWith maskFilter masks c.jet_id
    higgs_idx := List.zipWith maskFilter masks c.higgs_idx
    hadron_flavor := List.zipWith maskFilter masks c.hadron_flavor }

/-- Per-event mask `ak.num(pt) >= MIN_JETS` (line 130). -/
def eventMask (c : Columns) : List Bool :=
  c.pt.map fun l => decide (MIN_JETS ≤ l.length)

/-- Lines 130–137: the event mask applied to the seven jet columns.  The
parent columns `higgs_pt`, `higgs_eta`, `higgs_phi` are not filtered in the
source. -/
def filterEvents (c : Columns) : Columns :=
  let m := eventMask c
  { c with
    pt := maskFilter m c.pt
    eta := maskFilter m c.eta
    phi := maskFilter m c.phi
    btag := maskFilter m c.btag
    jet_id := maskFilter m c.jet_id
    higgs_idx := maskFilter m c.higgs_idx
    hadron_flavor := maskFilter m c.hadron_flavor }

/-- Line 140: `higgs_idx = ak.where(higgs_idx > -1, higgs_idx, 0)`. -/
def remapUnmatched (c : Columns) : Columns :=
  { c with higgs_idx := c.higgs_idx.map (List.map fun v => if (-1 : ℤ) < v then v else 0) }

/-- Line 142: `higgs_idx = ak.where(hadron_flavor == 5, higgs_idx, 0)`. -/
def requireBJet (c : Columns) : Columns :=
  { c with
    higgs_idx :=
      List.zipWith (List.zipWith fun f v => if f = (5 : ℤ) then v else 0)
        c.hadron_flavor c.higgs_idx }

/-- The Event Filter composed (lines 120–142). -/
def filteredCols (c : Columns) : Columns :=
  requireBJet (remapUnmatched (filterEvents (filterJets c)))

/-- One zipped jet record (line 40–42): `{"pt", "eta", "phi",
"mass": zeros_like(pt), "higgs_idx"}` with behaviour `Momentum4D`. -/
structure Jet where
  pt : ℚ
  eta : ℚ
  phi : ℚ
  mass : ℚ
  higgs_idx : ℤ
deriving DecidableEq

/-- `ak.zip` of the four-per-jet columns into jet records; `mass` is
`ak.zeros_like(pt)` (line 41). -/
def mkJets : List ℚ → List ℚ → List ℚ → List ℤ → List Jet
  | p :: ps, e :: es, f :: fs, h :: hs => ⟨p, e, f, 0, h⟩ :: mkJets ps es fs hs
  | _, _, _, _ => []

/-- The `vector` library's `Momentum4D` equality `j0 == j1` used by the
self-loop mask on line 48: exact equality of the four stored coordinates.
The non-coordinate field `higgs_idx` is not compared. -/
def momentumEq (a b : Jet) : Bool :=
  decide (a.pt = b.pt ∧ a.eta = b.eta ∧ a.phi = b.phi ∧ a.mass = b.mass)

/-- `ak.cartesian` / `ak.argcartesian` of two lists for one event: all pairs
in row-major order. -/
def cartesianPairs (xs : List α) (ys : List β) : List (α × β) :=
  xs.flatMap fun x => ys.map fun y => (x, y)

/-- Lines 47–49: `jet_pairs = ak.cartesian({"j0": jets, "j1": jets})`
restricted by `~(jet_pairs.j0 == jet_pairs.j1)`. -/
def jetPairs (jets : List Jet) : List (Jet × Jet) :=
  (cartesianPairs jets jets).filter fun p => ! momentumEq p.1 p.2

/-- Lines 29–36, `get_edge_index` for an event with `k` jet slots:
`ak.argcartesian` of the slot list with itself, masked by
`one_index != two_index`. -/
def get_edge_index (k : ℕ) : List (ℕ × ℕ) :=
  (cartesianPairs (List.range k) (List.range k)).filter fun p => decide (p.1 ≠ p.2)

/-- One row of the edge feature matrix (lines 57–68).  `j0`/`j1` are the jet
pair the row is computed from; `min_pt` (line 58) is the argument of the
logarithm in `log_kt` (line 64), `sum_pt` is line 59, and
`log_z_arg = min_pt / sum_pt` is the argument of `log_z` (line 65).  The
remaining five features are irrational functions of `(j0, j1)` (real `log`,
`cosh`, `cos`) and are determined by the recorded pair. -/
structure EdgeFeat where
  j0 : Jet
  j1 : Jet
  min_pt : ℚ
  sum_pt : ℚ
  log_z_arg : ℚ
deriving DecidableEq

/-- Build one edge-feature row from a jet pair (lines 58–59, 65). -/
def mkEdgeFeat (p : Jet × Jet) : EdgeFeat :=
  { j0 := p.1
    j1 := p.2
    min_pt := if p.1.pt < p.2.pt then p.1.pt else p.2.pt
    sum_pt := p.1.pt + p.2.pt
    log_z_arg := (if p.1.pt < p.2.pt then p.1.pt else p.2.pt) / (p.1.pt + p.2.pt) }

/-- Line 71: `edge_match = ak.where(j0.higgs_idx > 0,
j0.higgs_idx == j1.higgs_idx, 0)`, cast to integer 1/0 by
`torch.tensor(..., dtype=torch.long)` (line 166). -/
def edge_match (p : Jet × Jet) : ℤ :=
  if 0 < p.1.higgs_idx then (if p.1.higgs_idx = p.2.higgs_idx then 1 else 0) else 0

/-- Lines 39–72, `compute_edge_features` for one event: zip the jets, form
the self-loop-masked Cartesian pairs, return the edge-feature rows and the
edge labels.  `higgs_pt`, `higgs_eta`, `higgs_phi` are parameters of the
source function but are only zipped into the unused `higgses` record
(line 52, `noqa: F841`); they influence nothing. -/
def compute_edge_features (pt eta phi : List ℚ) (higgs_idx : List ℤ)
    (higgs_pt higgs_eta higgs_phi : List ℚ) : List EdgeFeat × List ℤ :=
  let jets := mkJets pt eta phi higgs_idx
  let jet_pairs := jetPairs jets
  (jet_pairs.map mkEdgeFeat, jet_pairs.map edge_match)

/-- One row of the node feature matrix `x` (line 156):
`[ln(pt), eta, phi, btag, jet_id]`.  `log_pt_arg` is the argument of the
`ln`; the stored value is its real logarithm. -/
structure NodeFeat where
  log_pt_arg : ℚ
  eta : ℚ
  phi : ℚ
  btag : ℚ
  jet_id : ℤ
deriving DecidableEq

/-- `np.stack` of the five per-jet columns into node rows (line 156). -/
def mkNodeFeats : List ℚ → List ℚ → List ℚ → List ℚ → List ℤ → List NodeFeat
  | p :: ps, e :: es, f :: fs, b :: bs, j :: js =>
      ⟨p, e, f, b, j⟩ :: mkNodeFeats ps es fs bs js
  | _, _, _, _, _ => []

/-- One produced training example, `Data(x, edge_attr, edge_index, y)`
(line 168). -/
structure GraphRecord where
  x : List NodeFeat
  edge_attr : List EdgeFeat
  edge_index : List (ℕ × ℕ)
  y : List ℤ
deriving DecidableEq

/-- Placeholder record used only as the default of `List.getD`. -/
def dummyRecord : GraphRecord := ⟨[], [], [], []⟩

/-- The body of the event loop (lines 155–168) for event `i` of the filtered
columns. -/
def mkRecord (c : Columns) (i : ℕ) : GraphRecord :=
  let fe := compute_edge_features (c.pt.getD i []) (c.eta.getD i [])
    (c.phi.getD i []) (c.higgs_idx.getD i []) (c.higgs_pt.getD i [])
    (c.higgs_eta.getD i []) (c.higgs_phi.getD i [])
  { x := mkNodeFeats (c.pt.getD i []) (c.eta.getD i []) (c.phi.getD i [])
      (c.btag.getD i []) (c.jet_id.getD i [])
    edge_attr := fe.1
    edge_index := get_edge_index (c.pt.getD i []).length
    y := fe.2 }

/-- Lines 149–169: loop over `range(len(pt))`, skip events with fewer than
`MIN_JETS` jets (line 152–154), otherwise emit one `GraphRecord`. -/
def buildRecords (c : Columns) : List GraphRecord :=
  (List.range c.pt.length).filterMap fun i =>
    if (c.pt.getD i []).length < MIN_JETS then none else some (mkRecord c i)

/-- The whole `process` pipeline on loaded columns (lines 120–169). -/
def process (c : Columns) : List GraphRecord :=
  buildRecords (filteredCols c)

/-! ### Basic lemmas about `maskFilter` and list utilities -/

theorem maskFilter_nil (bs : List Bool) : maskFilter bs ([] : List α) = [] := by
  cases bs with
  | nil => rfl
  | cons b bs => cases b <;> rfl

theorem maskFilter_sublist (bs : List Bool) (xs : List α) :
    (maskFilter bs xs).Sublist xs := by
  induction bs generalizing xs with
  | nil => cases xs <;> simp [maskFilter]
  | cons b bs ih =>
    cases xs with
    | nil => simp [maskFilter_nil]
    | cons x xs =>
      cases b with
      | true => exact (ih xs).cons₂ x
      | false => exact (ih xs).cons x

theorem mem_of_mem_maskFilter {bs : List Bool} {xs : List α} {x : α}
    (h : x ∈ maskFilter bs xs) : x ∈ xs :=
  (maskFilter_sublist bs xs).subset h

theorem maskFilter_map_self (p : α → Bool) (l : List α) :
    maskFilter (l.map p) l = l.filter p := by
  induction l with
  | nil => rfl
  | cons x xs ih =>
    cases hp : p x <;> simp [maskFilter, hp, List.filter_cons, ih]

theorem maskFilter_zip (bs : List Bool) (xs : List α) (ys : List β)
    (h : xs.length = ys.length) :
    (maskFilter bs xs).zip (maskFilter bs ys) = maskFilter bs (xs.zip ys) := by
  induction bs generalizing xs ys with
  | nil => simp [maskFilter]
  | cons b bs ih =>
    cases xs with
    | nil =>
      cases ys with
      | nil => simp [maskFilter_nil]
      | cons y ys => simp at h
    | cons x xs =>
      cases ys with
      | nil => simp at h
      | cons y ys =>
        cases b with
        | true =>
          show (x, y) :: (maskFilter bs xs).zip (maskFilter bs ys) =
            (x, y) :: maskFilter bs (xs.zip ys)
          rw [ih xs ys (by simpa using h)]
        | false =>
          show (maskFilter bs xs).zip (maskFilter bs ys) = maskFilter bs (xs.zip ys)
          exact ih xs ys (by simpa using h)

theorem mem_zipWith {f : α → β → γ} {as : List α} {bs : List β} {c : γ}
    (h : c ∈ List.zipWith f as bs) : ∃ a ∈ as, ∃ b ∈ bs, c = f a b := by
  induction as generalizing bs with
  | nil => simp at h
  | cons a as ih =>
    cases bs with
    | nil => simp at h
    | cons b bs =>
      rw [List.zipWith_cons_cons] at h
      rcases List.mem_cons.mp h with h | h
      · exact ⟨a, List.mem_cons_self a as, b, List.mem_cons_self b bs, h⟩
      · obtain ⟨a', ha, b', hb, rfl⟩ := ih h
        exact ⟨a', List.mem_cons_of_mem _ ha, b', List.mem_cons_of_mem _ hb, rfl⟩

theorem filterMap_eq_map_of_forall {f : α → Option β} {g : α → β} {l : List α}
    (h : ∀ a ∈ l, f a = some (g a)) : l.filterMap f = l.map g := by
  induction l with
  | nil => rfl
  | cons x xs ih =>
    rw [List.filterMap_cons, h x (List.mem_cons_self _ _), List.map_cons,
      ih fun a ha => h a (List.mem_cons_of_mem _ ha)]

theorem getD_mem {l : List α} {i : ℕ} (h : i < l.length) (d : α) : l.getD i d ∈ l := by
  rw [List.getD_eq_getElem?_getD, List.getElem?_eq_getElem h]
  exact List.getElem_mem h

/-! ### Characterizations of the filter stages -/

theorem filterJets_pt (c : Columns) :
    (filterJets c).pt = c.pt.map fun l => l.filter fun x => decide (MIN_JET_PT < x) := by
  show List.zipWith maskFilter (c.pt.map ptMask) c.pt = _
  rw [List.zipWith_map_left, List.zipWith_same]
  simp [ptMask, maskFilter_map_self]

theorem filterEvents_pt (c : Columns) :
    (filterEvents c).pt = c.pt.filter fun l => decide (MIN_JETS ≤ l.length) := by
  show maskFilter (eventMask c) c.pt = _
  rw [eventMask, maskFilter_map_self]

theorem filteredCols_pt (c : Columns) :
    (filteredCols c).pt =
      (c.pt.map fun l => l.filter fun x => decide (MIN_JET_PT < x)).filter
        fun l => decide (MIN_JETS ≤ l.length) := by
  show (filterEvents (filterJets c)).pt = _
  rw [filterEvents_pt, filterJets_pt]

theorem filteredCols_pt_facts (c : Columns) {l : List ℚ}
    (h : l ∈ (filteredCols c).pt) : MIN_JETS ≤ l.length ∧ ∀ x ∈ l, MIN_JET_PT < x := by
  rw [filteredCols_pt] at h
  rcases List.mem_filter.mp h with ⟨h1, h2⟩
  rcases List.mem_map.mp h1 with ⟨l₀, _, rfl⟩
  refine ⟨by simpa using h2, fun x hx => ?_⟩
  simpa using (List.mem_filter.mp hx).2

theorem process_eq_map (c : Columns) :
    process c =
      (List.range (filteredCols c).pt.length).map (mkRecord (filteredCols c)) := by
  rw [process, buildRecords]
  refine filterMap_eq_map_of_forall fun i hi => ?_
  have hlt : i < (filteredCols c).pt.length := List.mem_range.mp hi
  have hmem := getD_mem hlt ([] : List ℚ)
  have hlen := (filteredCols_pt_facts c hmem).1
  rw [if_neg (by omega)]

theorem mem_process {c : Columns} {g : GraphRecord} (h : g ∈ process c) :
    ∃ i < (filteredCols c).pt.length, g = mkRecord (filteredCols c) i := by
  rw [process_eq_map] at h
  rcases List.mem_map.mp h with ⟨i, hi, rfl⟩
  exact ⟨i, List.mem_range.mp hi, rfl⟩

/-! ### Jets, pairs and the edge index -/

theorem mkJets_pt_mem {j : Jet} :
    ∀ (ps es fs : List ℚ) (hs : List ℤ), j ∈ mkJets ps es fs hs → j.pt ∈ ps
  | p :: ps, e :: es, f :: fs, h :: hs => fun hj => by
      rw [mkJets] at hj
      rcases List.mem_cons.mp hj with hj | hj
      · subst hj; exact List.mem_cons_self _ _
      · exact List.mem_cons_of_mem _ (mkJets_pt_mem ps es fs hs hj)
  | [], es, fs, hs => fun hj =>
      absurd hj (by cases es <;> cases fs <;> cases hs <;> exact List.not_mem_nil _)
  | _ :: _, [], fs, hs => fun hj =>
      absurd hj (by cases fs <;> cases hs <;> exact List.not_mem_nil _)
  | _ :: _, _ :: _, [], hs => fun hj =>
      absurd hj (by cases hs <;> exact List.not_mem_nil _)
  | _ :: _, _ :: _, _ :: _, [] => fun hj => absurd hj (List.not_mem_nil _)

theorem mkNodeFeats_arg_mem {nf : NodeFeat} :
    ∀ (ps es fs bs : List ℚ) (js : List ℤ),
      nf ∈ mkNodeFeats ps es fs bs js → nf.log_pt_arg ∈ ps
  | p :: ps, e :: es, f :: fs, b :: bs, j :: js => fun hn => by
      rw [mkNodeFeats] at hn
      rcases List.mem_cons.mp hn with hn | hn
      · subst hn; exact List.mem_cons_self _ _
      · exact List.mem_cons_of_mem _ (mkNodeFeats_arg_mem ps es fs bs js hn)
  | [], es, fs, bs, js => fun hn =>
      absurd hn
        (by cases es <;> cases fs <;> cases bs <;> cases js <;> exact List.not_mem_nil _)
  | _ :: _, [], fs, bs, js => fun hn =>
      absurd hn (by cases fs <;> cases bs <;> cases js <;> exact List.not_mem_nil _)
  | _ :: _, _ :: _, [], bs, js => fun hn =>
      absurd hn (by cases bs <;> cases js <;> exact List.not_mem_nil _)
  | _ :: _, _ :: _, _ :: _, [], js => fun hn =>
      absurd hn (by cases js <;> exact List.not_mem_nil _)
  | _ :: _, _ :: _, _ :: _, _ :: _, [] => fun hn => absurd hn (List.not_mem_nil _)

theorem mem_cartesianPairs {xs : List α} {ys : List β} {p : α × β} :
    p ∈ cartesianPairs xs ys ↔ p.1 ∈ xs ∧ p.2 ∈ ys := by
  obtain ⟨a, b⟩ := p
  constructor
  · intro h
    rcases List.mem_flatMap.mp h with ⟨x, hx, hp⟩
    rcases List.mem_map.mp hp with ⟨y, hy, he⟩
    cases he
    exact ⟨hx, hy⟩
  · rintro ⟨h1, h2⟩
    exact List.mem_flatMap.mpr ⟨a, h1, List.mem_map.mpr ⟨b, h2, rfl⟩⟩

theorem mem_jetPairs {jets : List Jet} {p : Jet × Jet} :
    p ∈ jetPairs jets ↔ p.1 ∈ jets ∧ p.2 ∈ jets ∧ momentumEq p.1 p.2 = false := by
  rw [jetPairs, List.mem_filter, mem_cartesianPairs]
  simp [Bool.not_eq_true', and_assoc]

theorem momentumEq_comm (a b : Jet) : momentumEq a b = momentumEq b a := by
  simp only [momentumEq, decide_eq_decide]
  constructor <;> rintro ⟨h1, h2, h3, h4⟩ <;> exact ⟨h1.symm, h2.symm, h3.symm, h4.symm⟩

/-- Spec wording (§4.3): for k jets, every ordered pair (i, j) with i ≠ j, in
row-major Cartesian order. -/
def rowMajorPairs (k : ℕ) : List (ℕ × ℕ) :=
  (List.range k).flatMap fun i =>
    ((List.range k).filter fun j => decide (i ≠ j)).map fun j => (i, j)

theorem get_edge_index_eq_rowMajor (k : ℕ) : get_edge_index k = rowMajorPairs k := by
  rw [get_edge_index, cartesianPairs, rowMajorPairs, List.filter_flatMap]
  refine List.flatMap_congr fun i _ => ?_
  rw [List.filter_map]
  rfl

theorem mem_get_edge_index {k : ℕ} {p : ℕ × ℕ} :
    p ∈ get_edge_index k ↔ p.1 < k ∧ p.2 < k ∧ p.1 ≠ p.2 := by
  rw [get_edge_index, List.mem_filter, mem_cartesianPairs]
  simp [List.mem_range, and_assoc]

theorem length_filter_ne (k i : ℕ) (h : i < k) :
    ((List.range k).filter fun j => decide (i ≠ j)).length = k - 1 := by
  induction k with
  | zero => omega
  | succ k ih =>
    rw [List.range_succ, List.filter_append]
    rcases Nat.lt_succ_iff_lt_or_eq.mp h with h | rfl
    · rw [List.length_append, ih h]
      have hik : i ≠ k := Nat.ne_of_lt h
      simp only [List.filter_cons, List.filter_nil, decide_eq_true_eq]
      rw [if_pos hik]
      simp
      omega
    · have hall : ∀ j ∈ List.range i, (decide (i ≠ j)) = true := by
        intro j hj
        have := List.mem_range.mp hj
        simp
        omega
      rw [List.filter_eq_self.mpr hall, List.length_append]
      simp

theorem get_edge_index_length (k : ℕ) : (get_edge_index k).length = k * (k - 1) := by
  rw [get_edge_index_eq_rowMajor, rowMajorPairs, List.length_flatMap]
  have hmap : (List.range k).map
      (List.length ∘ fun i => ((List.range k).filter fun j => decide (i ≠ j)).map fun j => (i, j)) =
      (List.range k).map fun _ => k - 1 := by
    refine List.map_congr_left fun i hi => ?_
    simp only [Function.comp, List.length_map]
    exact length_filter_ne k i (List.mem_range.mp hi)
  rw [hmap]
  rw [show ((List.range k).map fun _ => k - 1) = List.replicate k (k - 1) by
    simpa using List.map_const (List.range k) (k - 1)]
  simp [List.sum_replicate, Nat.smul_one_eq_cast]

/-! ### Concrete inputs used by witnesses and counterexamples -/

/-- Concrete loaded columns: one event with seven jet slots, six of which
pass the pt cut (the seventh has pt 10); jets 0 and 1 are matched to parent
1, jets 2 and 3 to parent 2, jet 4 has hadron flavour 0, jet 5 is unmatched. -/
def cW : Columns :=
  { higgs_pt := [[100, 90, 80]]
    higgs_eta := [[1, 2, 3]]
    higgs_phi := [[0, 1, 2]]
    pt := [[21, 22, 23, 24, 25, 26, 10]]
    eta := [[0, 1, 2, 3, 4, 5, 6]]
    phi := [[0, 0, 0, 0, 0, 0, 0]]
    btag := [[1, 1, 1, 1, 0, 0, 0]]
    jet_id := [[6, 6, 6, 6, 6, 6, 6]]
    higgs_idx := [[1, 1, 2, 2, 3, -1, -1]]
    hadron_flavor := [[5, 5, 5, 5, 0, 5, 5]] }

/-- The single record produced from `cW`. -/
def gW : GraphRecord := (process cW).getD 0 dummyRecord

/-- Concrete columns whose single event has six jets above the pt cut, the
first two of which have identical coordinates (pt 25, eta 0, phi 0). -/
def cEx3 : Columns :=
  { higgs_pt := [[100, 90, 80]]
    higgs_eta := [[1, 2, 3]]
    higgs_phi := [[0, 1, 2]]
    pt := [[25, 25, 26, 27, 28, 29]]
    eta := [[0, 0, 1, 2, 3, 4]]
    phi := [[0, 0, 0, 0, 0, 0]]
    btag := [[0, 0, 0, 0, 0, 0]]
    jet_id := [[6, 6, 6, 6, 6, 6]]
    higgs_idx := [[1, 1, 2, 2, 0, 0]]
    hadron_flavor := [[5, 5, 5, 5, 5, 5]] }

/-- Concrete columns with two events: event 0 keeps six jets, event 1 keeps
only five and is dropped by the event filter. -/
def cEx7 : Columns :=
  { higgs_pt := [[100, 90, 80], [70, 60, 50]]
    higgs_eta := [[1, 2, 3], [1, 2, 3]]
    higgs_phi := [[0, 1, 2], [0, 1, 2]]
    pt := [[21, 22, 23, 24, 25, 26], [21, 22, 23, 24, 25]]
    eta := [[0, 1, 2, 3, 4, 5], [0, 1, 2, 3, 4]]
    phi := [[0, 0, 0, 0, 0, 0], [0, 0, 0, 0, 0]]
    btag := [[0, 0, 0, 0, 0, 0], [0, 0, 0, 0, 0]]
    jet_id := [[6, 6, 6, 6, 6, 6], [6, 6, 6, 6, 6]]
    higgs_idx := [[1, 1, 2, 2, 3, -1], [1, 1, 2, 2, 3]]
    hadron_flavor := [[5, 5, 5, 5, 5, 5], [5, 5, 5, 5, 5]] }

/-- Default jet used only as a `getD` fallback. -/
def dummyJet : Jet := ⟨0, 0, 0, 0, 0⟩

/-- The first edge-feature row of `gW` (the edge joining jets 0 and 1). -/
def fW0 : EdgeFeat := gW.edge_attr.getD 0 (mkEdgeFeat (dummyJet, dummyJet))

/-- The first node-feature row of `gW`. -/
def nW0 : NodeFeat := gW.x.getD 0 ⟨0, 0, 0, 0, 0⟩

/-! ### Unfolding lemmas for `mkRecord` -/

/-- The jets zipped for event `i` (line 40–42 applied to the filtered
columns). -/
def eventJets (c : Columns) (i : ℕ) : List Jet :=
  mkJets (c.pt.getD i []) (c.eta.getD i []) (c.phi.getD i []) (c.higgs_idx.getD i [])

theorem mkRecord_edge_attr (c : Columns) (i : ℕ) :
    (mkRecord c i).edge_attr = (jetPairs (eventJets c i)).map mkEdgeFeat := rfl

theorem mkRecord_y (c : Columns) (i : ℕ) :
    (mkRecord c i).y = (jetPairs (eventJets c i)).map edge_match := rfl

theorem mkRecord_edge_index (c : Columns) (i : ℕ) :
    (mkRecord c i).edge_index = get_edge_index (c.pt.getD i []).length := rfl

theorem mkRecord_x (c : Columns) (i : ℕ) :
    (mkRecord c i).x =
      mkNodeFeats (c.pt.getD i []) (c.eta.getD i []) (c.phi.getD i [])
        (c.btag.getD i []) (c.jet_id.getD i []) := rfl

theorem getElem?_map_eq_some {f : α → β} {l : List α} {n : ℕ} {b : β}
    (h : (l.map f)[n]? = some b) : ∃ a, l[n]? = some a ∧ f a = b := by
  rw [List.getElem?_map] at h
  cases hl : l[n]? with
  | none => rw [hl] at h; simp at h
  | some a => rw [hl] at h; exact ⟨a, rfl, by simpa using h⟩

/-! ### The claims -/

/-- C1: for every edge row (a, b) of every produced GraphRecord, the edge
label is 1 iff jet a's (rewritten) match-index is positive and equals jet
b's match-index; in particular the label is 0 whenever either endpoint's
match-index is 0 (and every label is 0 or 1). -/
theorem c1_edge_label_rule (c : Columns) (g : GraphRecord) (hg : g ∈ process c)
    (r : ℕ) (f : EdgeFeat) (hf : g.edge_attr[r]? = some f) :
    (g.y[r]? = some 1 ↔ 0 < f.j0.higgs_idx ∧ f.j0.higgs_idx = f.j1.higgs_idx) ∧
    (g.y[r]? = some 1 ∨ g.y[r]? = some 0) ∧
    ((f.j0.higgs_idx = 0 ∨ f.j1.higgs_idx = 0) → g.y[r]? = some 0) := by
  obtain ⟨i, hi, rfl⟩ := mem_process hg
  rw [mkRecord_edge_attr] at hf
  obtain ⟨p, hp, rfl⟩ := getElem?_map_eq_some hf
  rw [mkRecord_y, List.getElem?_map, hp]
  have hj0 : (mkEdgeFeat p).j0 = p.1 := rfl
  have hj1 : (mkEdgeFeat p).j1 = p.2 := rfl
  rw [hj0, hj1]
  simp only [Option.map_some', Option.some.injEq, edge_match]
  constructor
  · constructor
    · intro h
      by_cases h1 : 0 < p.1.higgs_idx
      · by_cases h2 : p.1.higgs_idx = p.2.higgs_idx
        · exact ⟨h1, h2⟩
        · rw [if_pos h1, if_neg h2] at h; exact absurd h (by norm_num)
      · rw [if_neg h1] at h; exact absurd h (by norm_num)
    · rintro ⟨h1, h2⟩; rw [if_pos h1, if_pos h2]
  constructor
  · by_cases h1 : 0 < p.1.higgs_idx
    · by_cases h2 : p.1.higgs_idx = p.2.higgs_idx
      · left; rw [if_pos h1, if_pos h2]
      · right; rw [if_pos h1, if_neg h2]
    · right; rw [if_neg h1]
  · rintro (h0 | h0)
    · rw [if_neg (by omega)]
    · by_cases h1 : 0 < p.1.higgs_idx
      · rw [if_pos h1, if_neg (by omega)]
      · rw [if_neg h1]

/-- Witness for C1: the first edge of the record built from `cW` joins jets
0 and 1, both matched to parent 1, and is labelled 1. -/
theorem c1_edge_label_rule_witness :
    gW.y[0]? = some 1 ∧ 0 < fW0.j0.higgs_idx ∧
      fW0.j0.higgs_idx = fW0.j1.higgs_idx := by
  have h := (c1_edge_label_rule cW gW (by with_unfolding_all decide) 0 fW0
    (by with_unfolding_all decide)).1
  have hidx : 0 < fW0.j0.higgs_idx ∧ fW0.j0.higgs_idx = fW0.j1.higgs_idx := by
    with_unfolding_all decide
  exact ⟨h.mpr hidx, hidx⟩

/-- C2: record i of the output is built from filtered event i; writing k for
that event's surviving-jet count, its edge index list is `rowMajorPairs k` —
every ordered pair (i, j) of node positions with i ≠ j, in row-major
Cartesian order — hence has exactly k·(k−1) entries and no self-loops. -/
theorem c2_edge_index_complete (c : Columns) (i : ℕ) (l : List ℚ)
    (hl : (filterEvents (filterJets c)).pt[i]? = some l)
    (g : GraphRecord) (hg : (process c)[i]? = some g) :
    g.edge_index = rowMajorPairs l.length ∧
    g.edge_index.length = l.length * (l.length - 1) ∧
    (∀ p ∈ g.edge_index, p.1 ≠ p.2) ∧
    (∀ p : ℕ × ℕ, p ∈ g.edge_index ↔ p.1 < l.length ∧ p.2 < l.length ∧ p.1 ≠ p.2) := by
  have hptF : (filteredCols c).pt = (filterEvents (filterJets c)).pt := rfl
  rw [process_eq_map, List.getElem?_map] at hg
  have hlt : i < (filteredCols c).pt.length := by
    rw [hptF]
    have := List.getElem?_eq_some.mp hl
    exact this.1
  rw [List.getElem?_range hlt] at hg
  have hgeq : g = mkRecord (filteredCols c) i := by
    simpa using hg.symm
  have hgetD : (filteredCols c).pt.getD i [] = l := by
    rw [List.getD_eq_getElem?_getD, hptF, hl]
    rfl
  subst hgeq
  rw [mkRecord_edge_index, hgetD]
  refine ⟨get_edge_index_eq_rowMajor _, get_edge_index_length _, ?_, ?_⟩
  · intro p hp
    exact (mem_get_edge_index.mp hp).2.2
  · intro p
    exact mem_get_edge_index

/-- Witness for C2 at `cW`: the filtered event has 6 jets and the record's
edge index list is the row-major list of the 30 ordered pairs below 6. -/
theorem c2_edge_index_complete_witness :
    gW.edge_index = rowMajorPairs 6 ∧ gW.edge_index.length = 30 := by
  have h := c2_edge_index_complete cW 0 [21, 22, 23, 24, 25, 26]
    (by with_unfolding_all decide) gW (by with_unfolding_all decide)
  refine ⟨by simpa using h.1, by simpa using h.2.1⟩

/-- C3 (code bug): on the event `cEx3`, whose first two surviving jets have
identical coordinates, the produced record has 30 edge-index entries but
only 28 edge-feature rows and 28 labels: the self-loop mask of
`compute_edge_features` (Momentum4D coordinate equality, line 48) removes
two more ordered pairs than the positional mask of `get_edge_index`
(line 35), so row r of the edge features does not describe edge r. -/
theorem c3_feature_misalignment_on_duplicate_jets :
    (process cEx3).length = 1 ∧
    ((process cEx3).getD 0 dummyRecord).edge_index.length = 30 ∧
    ((process cEx3).getD 0 dummyRecord).edge_attr.length = 28 ∧
    ((process cEx3).getD 0 dummyRecord).y.length = 28 := by
  with_unfolding_all decide

/-- C5: every event surviving the event filter has at least MIN_JETS jets,
and the Graph Builder's defensive re-check never skips anything: exactly
one record is produced per filtered event. -/
theorem c5_min_jets_guarantee (c : Columns) :
    (∀ l ∈ (filterEvents (filterJets c)).pt, MIN_JETS ≤ l.length) ∧
    (process c).length = (filterEvents (filterJets c)).pt.length := by
  constructor
  · intro l hl
    rw [filterEvents_pt] at hl
    simpa using (List.mem_filter.mp hl).2
  · rw [process_eq_map, List.length_map, List.length_range]
    rfl

/-- Witness for C5 at `cW`: the surviving event keeps six jets and exactly
one record is produced for the one filtered event. -/
theorem c5_min_jets_guarantee_witness :
    MIN_JETS ≤ ([21, 22, 23, 24, 25, 26] : List ℚ).length ∧
      (process cW).length = 1 := by
  have h := c5_min_jets_guarantee cW
  exact ⟨h.1 [21, 22, 23, 24, 25, 26] (by with_unfolding_all decide),
    h.2.trans (by with_unfolding_all decide)⟩

theorem filterJets_col_getD {c : Columns} {e : ℕ} {pl : List ℚ}
    (hp : c.pt[e]? = some pl) (col : List (List α)) :
    (List.zipWith maskFilter (c.pt.map ptMask) col).getD e [] =
      maskFilter (ptMask pl) (col.getD e []) := by
  rw [List.getD_eq_getElem?_getD, List.getD_eq_getElem?_getD, List.getElem?_zipWith,
    List.getElem?_map, hp]
  cases hc : col[e]? with
  | none => simp [maskFilter_nil]
  | some l => simp

/-- C4: step 1 keeps a jet slot iff its pt is strictly greater than
MIN_JET_PT — every survivor satisfies pt > 20 and a jet with pt exactly 20
is removed — and the identical boolean mask `ptMask pl` (derived from the
event's pt list) is applied to all seven jet columns; masking commutes with
zipping two aligned columns, so per-event index alignment is preserved. -/
theorem c4_pt_mask_rule (c : Columns) (e : ℕ) (pl el : List ℚ)
    (hp : c.pt[e]? = some pl) (he : c.eta[e]? = some el)
    (hlen : pl.length = el.length) :
    (filterJets c).pt.getD e [] = pl.filter (fun x => decide (MIN_JET_PT < x)) ∧
    (∀ x ∈ (filterJets c).pt.getD e [], MIN_JET_PT < x) ∧
    (20 : ℚ) ∉ (filterJets c).pt.getD e [] ∧
    (filterJets c).eta.getD e [] = maskFilter (ptMask pl) el ∧
    (filterJets c).phi.getD e [] = maskFilter (ptMask pl) (c.phi.getD e []) ∧
    (filterJets c).btag.getD e [] = maskFilter (ptMask pl) (c.btag.getD e []) ∧
    (filterJets c).jet_id.getD e [] = maskFilter (ptMask pl) (c.jet_id.getD e []) ∧
    (filterJets c).higgs_idx.getD e [] =
      maskFilter (ptMask pl) (c.higgs_idx.getD e []) ∧
    (filterJets c).hadron_flavor.getD e [] =
      maskFilter (ptMask pl) (c.hadron_flavor.getD e []) ∧
    ((filterJets c).pt.getD e []).zip ((filterJets c).eta.getD e []) =
      maskFilter (ptMask pl) (pl.zip el) := by
  have hgetD : c.pt.getD e [] = pl := by
    rw [List.getD_eq_getElem?_getD, hp]; rfl
  have hpt : (filterJets c).pt.getD e [] = maskFilter (ptMask pl) pl := by
    have h := filterJets_col_getD hp c.pt
    rw [hgetD] at h
    exact h
  have hptf : (filterJets c).pt.getD e [] =
      pl.filter (fun x => decide (MIN_JET_PT < x)) := by
    rw [hpt, ptMask, maskFilter_map_self]
  have hetaD : c.eta.getD e [] = el := by
    rw [List.getD_eq_getElem?_getD, he]; rfl
  have heta : (filterJets c).eta.getD e [] = maskFilter (ptMask pl) el := by
    have h := filterJets_col_getD hp c.eta
    rw [hetaD] at h
    exact h
  refine ⟨hptf, ?_, ?_, heta, filterJets_col_getD hp c.phi,
    filterJets_col_getD hp c.btag, filterJets_col_getD hp c.jet_id,
    filterJets_col_getD hp c.higgs_idx, filterJets_col_getD hp c.hadron_flavor, ?_⟩
  · intro x hx
    rw [hptf] at hx
    simpa using (List.mem_filter.mp hx).2
  · intro hx
    rw [hptf] at hx
    have := (List.mem_filter.mp hx).2
    simp [MIN_JET_PT] at this
  · rw [hpt, heta]
    exact maskFilter_zip (ptMask pl) pl el hlen

/-- Witness for C4 at `cW`: the jet with pt 10 is removed, the six jets
with pt 21..26 survive, and the eta column is masked in lockstep. -/
theorem c4_pt_mask_rule_witness :
    (filterJets cW).pt.getD 0 [] = [21, 22, 23, 24, 25, 26] ∧
    (20 : ℚ) ∉ (filterJets cW).pt.getD 0 [] ∧
    (filterJets cW).eta.getD 0 [] = [0, 1, 2, 3, 4, 5] := by
  have h := c4_pt_mask_rule cW 0 [21, 22, 23, 24, 25, 26, 10] [0, 1, 2, 3, 4, 5, 6]
    (by with_unfolding_all decide) (by with_unfolding_all decide)
    (by with_unfolding_all decide)
  exact ⟨h.1.trans (by with_unfolding_all decide), h.2.2.1,
    h.2.2.2.1.trans (by with_unfolding_all decide)⟩

theorem getElem?_of_getD_getElem? {xs : List (List α)} {e j : ℕ} {v : α}
    (h : (xs.getD e [])[j]? = some v) : ∃ l, xs[e]? = some l ∧ l[j]? = some v := by
  rw [List.getD_eq_getElem?_getD] at h
  cases he : xs[e]? with
  | none => rw [he] at h; simp at h
  | some l => rw [he] at h; exact ⟨l, rfl, h⟩

/-- C6: after steps 3 and 4 the match-index of jet slot j of event e equals
0 if its pre-step value was ≤ −1 or the slot's hadron flavour is ≠ 5, and
equals the pre-step value otherwise; no other column is touched by these
two steps. -/
theorem c6_idx_rewrite (d : Columns) (e j : ℕ) (v f : ℤ)
    (hv : (d.higgs_idx.getD e [])[j]? = some v)
    (hf : (d.hadron_flavor.getD e [])[j]? = some f) :
    ((requireBJet (remapUnmatched d)).higgs_idx.getD e [])[j]? =
      some (if v ≤ -1 ∨ f ≠ 5 then 0 else v) ∧
    (requireBJet (remapUnmatched d)).pt = d.pt ∧
    (requireBJet (remapUnmatched d)).eta = d.eta ∧
    (requireBJet (remapUnmatched d)).phi = d.phi ∧
    (requireBJet (remapUnmatched d)).btag = d.btag ∧
    (requireBJet (remapUnmatched d)).jet_id = d.jet_id ∧
    (requireBJet (remapUnmatched d)).hadron_flavor = d.hadron_flavor ∧
    (requireBJet (remapUnmatched d)).higgs_pt = d.higgs_pt ∧
    (requireBJet (remapUnmatched d)).higgs_eta = d.higgs_eta ∧
    (requireBJet (remapUnmatched d)).higgs_phi = d.higgs_phi := by
  obtain ⟨le, hle, hlej⟩ := getElem?_of_getD_getElem? hv
  obtain ⟨lf, hlf, hlfj⟩ := getElem?_of_getD_getElem? hf
  refine ⟨?_, rfl, rfl, rfl, rfl, rfl, rfl, rfl, rfl, rfl⟩
  have hcol : (requireBJet (remapUnmatched d)).higgs_idx =
      List.zipWith (List.zipWith fun f v => if f = (5 : ℤ) then v else 0)
        d.hadron_flavor
        (d.higgs_idx.map (List.map fun v => if (-1 : ℤ) < v then v else 0)) := rfl
  have hmape : (d.higgs_idx.map (List.map fun v => if (-1 : ℤ) < v then v else 0))[e]? =
      some (le.map fun v => if (-1 : ℤ) < v then v else 0) := by
    rw [List.getElem?_map, hle]; rfl
  have hzipe : ((requireBJet (remapUnmatched d)).higgs_idx)[e]? =
      some (List.zipWith (fun f v => if f = (5 : ℤ) then v else 0) lf
        (le.map fun v => if (-1 : ℤ) < v then v else 0)) := by
    rw [hcol, List.getElem?_zipWith, hlf, hmape]
  rw [List.getD_eq_getElem?_getD, hzipe]
  show (List.zipWith (fun f v => if f = (5 : ℤ) then v else 0) lf
      (le.map fun v => if (-1 : ℤ) < v then v else 0))[j]? = _
  have hmapj : (le.map fun v => if (-1 : ℤ) < v then v else 0)[j]? =
      some (if (-1 : ℤ) < v then v else 0) := by
    rw [List.getElem?_map, hlej]; rfl
  rw [List.getElem?_zipWith, hlfj, hmapj]
  show some _ = some _
  congr 1
  split_ifs <;> omega

/-- Witness for C6 at `cW`: jet slot 5 of event 0 has match-index −1 and
hadron flavour 5; after steps 3–4 its match-index is 0. -/
theorem c6_idx_rewrite_witness :
    ((requireBJet (remapUnmatched cW)).higgs_idx.getD 0 [])[5]? = some 0 := by
  have h := (c6_idx_rewrite cW 0 5 (-1) 5 (by with_unfolding_all decide)
    (by with_unfolding_all decide)).1
  simpa using h

/-- C7 counterexample: on `cEx7` exactly one event is retained by the
event filter, yet the parent pt array still has two rows — it is not
row-filtered, contradicting "one row per retained event". -/
theorem c7_parent_rows_counterexample :
    (filteredCols cEx7).pt.length = 1 ∧
    (filteredCols cEx7).higgs_pt.length = 2 ∧
    (filteredCols cEx7).higgs_pt.length ≠ (filteredCols cEx7).pt.length := by
  with_unfolding_all decide

/-- C7 amended: the step-2 event mask row-filters only the seven jet
columns (an event survives iff it keeps at least MIN_JETS jets); the parent
columns pass through the whole Event Filter unchanged, keeping one row per
original (unfiltered) event, each of width N_PARENTS as loaded. -/
theorem c7_parent_rows_amended (c : Columns) :
    (filteredCols c).higgs_pt = c.higgs_pt ∧
    (filteredCols c).higgs_eta = c.higgs_eta ∧
    (filteredCols c).higgs_phi = c.higgs_phi ∧
    (filterEvents (filterJets c)).pt =
      ((filterJets c).pt.filter fun l => decide (MIN_JETS ≤ l.length)) ∧
    (filterEvents (filterJets c)).eta =
      maskFilter (eventMask (filterJets c)) (filterJets c).eta ∧
    (filterEvents (filterJets c)).phi =
      maskFilter (eventMask (filterJets c)) (filterJets c).phi ∧
    (filterEvents (filterJets c)).btag =
      maskFilter (eventMask (filterJets c)) (filterJets c).btag ∧
    (filterEvents (filterJets c)).jet_id =
      maskFilter (eventMask (filterJets c)) (filterJets c).jet_id ∧
    (filterEvents (filterJets c)).higgs_idx =
      maskFilter (eventMask (filterJets c)) (filterJets c).higgs_idx ∧
    (filterEvents (filterJets c)).hadron_flavor =
      maskFilter (eventMask (filterJets c)) (filterJets c).hadron_flavor :=
  ⟨rfl, rfl, rfl, filterEvents_pt (filterJets c), rfl, rfl, rfl, rfl, rfl, rfl⟩

theorem filteredCols_idx_provenance (c : Columns) {l : List ℤ} {v : ℤ}
    (hl : l ∈ (filteredCols c).higgs_idx) (hv : v ∈ l) :
    v = 0 ∨ ∃ w, (∃ l₀ ∈ c.higgs_idx, w ∈ l₀) ∧
      v = if (-1 : ℤ) < w then w else 0 := by
  have hcol : (filteredCols c).higgs_idx =
      List.zipWith (List.zipWith fun f v => if f = (5 : ℤ) then v else 0)
        (filterEvents (filterJets c)).hadron_flavor
        ((filterEvents (filterJets c)).higgs_idx.map
          (List.map fun v => if (-1 : ℤ) < v then v else 0)) := rfl
  rw [hcol] at hl
  obtain ⟨a, ha, b, hb, rfl⟩ := mem_zipWith hl
  obtain ⟨fv, hfv, w', hw', rfl⟩ := mem_zipWith hv
  by_cases h5 : fv = (5 : ℤ)
  · rcases List.mem_map.mp hb with ⟨b₀, hb₀, rfl⟩
    rcases List.mem_map.mp hw' with ⟨w, hw, rfl⟩
    right
    refine ⟨w, ?_, by simp [h5]⟩
    have hb₀' : b₀ ∈ (filterJets c).higgs_idx := mem_of_mem_maskFilter hb₀
    obtain ⟨m, hm, l₀, hl₀, rfl⟩ := mem_zipWith hb₀'
    exact ⟨l₀, hl₀, mem_of_mem_maskFilter hw⟩
  · left; simp [h5]

/-- C8: if every loaded match-index is −1 or in 1..N_HIGGS, then after the
full Event Filter every surviving jet's match-index lies in 0..N_HIGGS. -/
theorem c8_idx_range (c : Columns)
    (h : ∀ l ∈ c.higgs_idx, ∀ w ∈ l, w = -1 ∨ (1 ≤ w ∧ w ≤ (N_HIGGS : ℤ))) :
    ∀ l ∈ (filteredCols c).higgs_idx, ∀ v ∈ l, 0 ≤ v ∧ v ≤ (N_HIGGS : ℤ) := by
  intro l hl v hv
  rcases filteredCols_idx_provenance c hl hv with rfl | ⟨w, ⟨l₀, hl₀, hw⟩, rfl⟩
  · simp [N_HIGGS]
  · rcases h l₀ hl₀ w hw with rfl | hw13
    · simp [N_HIGGS]
    · rw [if_pos (by omega)]
      simp only [N_HIGGS] at hw13 ⊢
      constructor <;> omega

/-- Witness for C8 at `cW`: its match-indices are −1 or in 1..3, and the
value 2 surviving in the filtered index column lies in 0..3. -/
theorem c8_idx_range_witness :
    0 ≤ (2 : ℤ) ∧ (2 : ℤ) ≤ (N_HIGGS : ℤ) :=
  c8_idx_range cW (by with_unfolding_all decide) [1, 1, 2, 2, 0, 0]
    (by with_unfolding_all decide) 2 (by with_unfolding_all decide)

theorem edge_match_comm (a b : Jet) : edge_match (a, b) = edge_match (b, a) := by
  simp only [edge_match]
  split_ifs <;> omega

/-- C9: the edge label is symmetric — the label rule gives equal values on
(a, b) and (b, a), and in every produced record the swapped pair appears as
another edge row carrying the same label. -/
theorem c9_label_symmetric (c : Columns) (g : GraphRecord) (hg : g ∈ process c)
    (r : ℕ) (f : EdgeFeat) (hf : g.edge_attr[r]? = some f) :
    edge_match (f.j0, f.j1) = edge_match (f.j1, f.j0) ∧
    ∃ s : ℕ, ∃ fs : EdgeFeat, g.edge_attr[s]? = some fs ∧ fs.j0 = f.j1 ∧ fs.j1 = f.j0 ∧
      g.y[s]? = g.y[r]? := by
  obtain ⟨i, hi, rfl⟩ := mem_process hg
  rw [mkRecord_edge_attr] at hf
  obtain ⟨p, hp, rfl⟩ := getElem?_map_eq_some hf
  have hj0 : (mkEdgeFeat p).j0 = p.1 := rfl
  have hj1 : (mkEdgeFeat p).j1 = p.2 := rfl
  rw [hj0, hj1]
  refine ⟨edge_match_comm p.1 p.2, ?_⟩
  have hpmem : p ∈ jetPairs (eventJets (filteredCols c) i) := by
    have := List.mem_iff_getElem?.mpr ⟨r, hp⟩
    exact this
  have hswap : (p.2, p.1) ∈ jetPairs (eventJets (filteredCols c) i) := by
    rcases mem_jetPairs.mp hpmem with ⟨h1, h2, h3⟩
    refine mem_jetPairs.mpr ⟨h2, h1, ?_⟩
    rw [momentumEq_comm]
    exact h3
  obtain ⟨s, hs⟩ := List.mem_iff_getElem?.mp hswap
  refine ⟨s, mkEdgeFeat (p.2, p.1), ?_, rfl, rfl, ?_⟩
  · rw [mkRecord_edge_attr, List.getElem?_map, hs]
    rfl
  · rw [mkRecord_y, List.getElem?_map, List.getElem?_map, hs, hp]
    show some (edge_match (p.2, p.1)) = some (edge_match p)
    rw [edge_match_comm]

/-- Witness for C9: the first edge row of the record built from `cW` has
the same label in both directions. -/
theorem c9_label_symmetric_witness :
    edge_match (fW0.j0, fW0.j1) = edge_match (fW0.j1, fW0.j0) :=
  (c9_label_symmetric cW gW (by with_unfolding_all decide) 0 fW0
    (by with_unfolding_all decide)).1

/-- C10: in every produced record the logarithm arguments built from pt
alone are strictly positive: every node feature's `ln(pt)` argument is
positive, and for every edge row the `min_pt` argument of the log in
`log_kt` and the `sum_pt` denominator are positive while `log_z`'s argument
`min_pt / sum_pt` lies in (0, 1/2].  Hence only `log_delta_r`, `log_mass2`
and `log_pt_jj` (whose arguments are not functions of pt alone) can receive
a non-positive argument. -/
theorem c10_pt_log_args_positive (c : Columns) (g : GraphRecord)
    (hg : g ∈ process c) :
    (∀ nf ∈ g.x, 0 < nf.log_pt_arg) ∧
    (∀ f ∈ g.edge_attr, 0 < f.min_pt ∧ 0 < f.sum_pt ∧
      0 < f.log_z_arg ∧ f.log_z_arg ≤ 1 / 2) := by
  obtain ⟨i, hi, rfl⟩ := mem_process hg
  have hfacts := filteredCols_pt_facts c (getD_mem hi ([] : List ℚ))
  have hpos : ∀ x ∈ (filteredCols c).pt.getD i [], (0 : ℚ) < x := by
    intro x hx
    have h20 := hfacts.2 x hx
    have h0 : (0 : ℚ) < MIN_JET_PT := by norm_num [MIN_JET_PT]
    linarith
  constructor
  · intro nf hnf
    rw [mkRecord_x] at hnf
    exact hpos _ (mkNodeFeats_arg_mem _ _ _ _ _ hnf)
  · intro f hf
    rw [mkRecord_edge_attr] at hf
    rcases List.mem_map.mp hf with ⟨p, hp, rfl⟩
    rcases mem_jetPairs.mp hp with ⟨h1, h2, _⟩
    have hpa : 0 < p.1.pt := hpos _ (mkJets_pt_mem _ _ _ _ h1)
    have hpb : 0 < p.2.pt := hpos _ (mkJets_pt_mem _ _ _ _ h2)
    have hmin : (0 : ℚ) < if p.1.pt < p.2.pt then p.1.pt else p.2.pt := by
      split_ifs <;> assumption
    have hsum : (0 : ℚ) < p.1.pt + p.2.pt := by linarith
    have hminle : (if p.1.pt < p.2.pt then p.1.pt else p.2.pt) * 2 ≤
        p.1.pt + p.2.pt := by
      split_ifs with hlt
      · linarith
      · have := le_of_not_lt hlt
        linarith
    have hj0 : (mkEdgeFeat p).min_pt = if p.1.pt < p.2.pt then p.1.pt else p.2.pt := rfl
    have hj1 : (mkEdgeFeat p).sum_pt = p.1.pt + p.2.pt := rfl
    have hj2 : (mkEdgeFeat p).log_z_arg =
        (if p.1.pt < p.2.pt then p.1.pt else p.2.pt) / (p.1.pt + p.2.pt) := rfl
    rw [hj0, hj1, hj2]
    refine ⟨hmin, hsum, div_pos hmin hsum, ?_⟩
    rw [div_le_iff₀ hsum]
    linarith

/-- Witness for C10 at `cW`: the first node row and the first edge row of
the produced record satisfy the positivity bounds. -/
theorem c10_pt_log_args_positive_witness :
    0 < nW0.log_pt_arg ∧ 0 < fW0.min_pt ∧ 0 < fW0.log_z_arg ∧
      fW0.log_z_arg ≤ 1 / 2 := by
  have h := c10_pt_log_args_positive cW gW (by with_unfolding_all decide)
  have hn := h.1 nW0 (by with_unfolding_all decide)
  have hf := h.2 fW0 (by with_unfolding_all decide)
  exact ⟨hn, hf.1, hf.2.2.1, hf.2.2.2⟩
